import Mathlib

/-!
Verification of the PubMed author tracker (`src/script.py`).

A shallow embedding of the incremental sync and matching engine of the
tracker script.  Strings are Lean `String`s; Python's string primitives
(`lower`, `strip`, `split`, `startswith`, the `in` substring test) are
embedded as executable functions over the underlying character lists.
Network responses and XML parsing are represented at the boundary the
script observes them: a chunk response either fails to parse (the
`ET.fromstring` call raises) or yields a list of already-extracted
article records.
-/

set_option autoImplicit false

namespace PubMedTracker

/-- Python `str.lower()` (ASCII case folding, as exercised by the script). -/
def pyLower (s : String) : String := ⟨s.toList.map Char.toLower⟩

/-- Python `token[0]` on a non-empty token, as a one-character string. -/
def firstChar (s : String) : String := ⟨s.toList.take 1⟩

/-- Python `s.startswith(pre)`. -/
def pyStartswith (s pre : String) : Bool := pre.toList.isPrefixOf s.toList

/-- All suffixes of a character list, longest first (including the empty one). -/
def tailsList : List Char → List (List Char)
  | [] => [[]]
  | c :: cs => (c :: cs) :: tailsList cs

/-- Python `needle in hay` (substring containment). -/
def pyInStr (needle hay : String) : Bool :=
  (tailsList hay.toList).any fun t => needle.toList.isPrefixOf t

/-- Worker for whitespace splitting: `acc` holds the current token reversed. -/
def wsTokensAux : List Char → List Char → List (List Char)
  | [], acc => if acc.isEmpty then [] else [acc.reverse]
  | c :: cs, acc =>
    if c.isWhitespace then
      if acc.isEmpty then wsTokensAux cs [] else acc.reverse :: wsTokensAux cs []
    else wsTokensAux cs (c :: acc)

/-- Python `s.split()` (split on whitespace runs, dropping empty tokens);
`s.strip().split()` produces the same token list. -/
def pySplit (s : String) : List String :=
  (wsTokensAux s.toList []).map fun cs => ⟨cs⟩

/-- Python `s.strip()`. -/
def pyStrip (s : String) : String :=
  ⟨((s.toList.dropWhile Char.isWhitespace).reverse.dropWhile Char.isWhitespace).reverse⟩

/-- `build_search_name` (script lines 72–90): `"Rachel L Leon" → "Leon RL"`.
The `ValueError` raised on fewer than two tokens is embedded as `Except.error`. -/
def build_search_name (full_name : String) : Except String String :=
  let parts := pySplit full_name
  if parts.length < 2 then
    .error ("Invalid full_name: " ++ full_name)
  else
    let first := parts.headD ""
    let middle := (parts.drop 1).dropLast
    let last := parts.getLastD ""
    let initials := firstChar first ++ (match middle with
      | [] => ""
      | m :: _ => firstChar m)
    .ok (last ++ " " ++ initials)

/-- `build_query` (script lines 93–97). -/
def build_query (author_name mindate maxdate : String) : String :=
  "\"" ++ author_name ++ "\" " ++
    "AND (\"" ++ mindate ++ "\"[PDAT] : \"" ++ maxdate ++ "\"[PDAT])"

/-- One `<Author>` entry of a fetched record, after the script's `_text`
extraction (missing elements become `""`).  Fields hold the raw text; the
matcher lowercases them exactly where the script does. -/
structure AuthorEntry where
  lastName : String
  foreName : String
  initials : String
deriving DecidableEq

/-- One `<PubmedArticle>` of a detail-fetch response, after the script's
per-field extraction: `affiliations` is the `affs` list (element texts that
are non-empty before stripping), `authors` the `<Author>` entries, and the
metadata fields the `_text` results the script reads. -/
structure Article where
  pmid : String
  affiliations : List String
  authors : List AuthorEntry
  title : String
  journal : String
  pubYear : String
  doi : String
deriving DecidableEq

/-- One output row as built by `efetch_details` (script lines 239–247);
`tracked_author` is set later by `main` (line 355). -/
structure Row where
  pmid : String
  title : String
  journal : String
  pub_year : String
  doi : String
  authors : String
  pubmed_url : String
  tracked_author : String
deriving DecidableEq

/-- Outcome of the two-stage candidate filter, with the diagnostic reason
the script logs: `affiliationMismatch` for the `[SKIP] … affiliation
mismatch` branch (AFFILIATION_MISMATCH), `authorMismatch` for the
`[SKIP] … AUTHOR mismatch` branch (AUTHOR_MISMATCH). -/
inductive MatchOutcome where
  | accepted
  | affiliationMismatch
  | authorMismatch
deriving DecidableEq

/-- `full_name.lower().split()` (script line 143). -/
def trackedParts (full_name : String) : List String := pySplit (pyLower full_name)

/-- `parts[-1]` (script line 144): the tracked author's last name. -/
def trackedLast (full_name : String) : String := (trackedParts full_name).getLastD ""

/-- `parts[0]` (script line 217): the tracked author's first given name. -/
def trackedFirst (full_name : String) : String := (trackedParts full_name).headD ""

/-- `tracked_initials` (script lines 147–149), built like `build_search_name`. -/
def trackedInitials (full_name : String) : String :=
  let parts := trackedParts full_name
  firstChar (parts.headD "") ++
    (if 2 < parts.length then firstChar (parts.getD 1 "") else "")

/-- The per-article accept/reject logic of `efetch_details`
(script lines 176–227): affiliation stage then author-name stage. -/
def matchArticle (full_name : String) (affiliations : List String)
    (art : Article) : MatchOutcome :=
  let affiliation_match := affiliations.any fun kw =>
    art.affiliations.any fun aff => pyInStr (pyLower kw) (pyLower aff)
  if !affiliation_match && !art.affiliations.isEmpty then
    .affiliationMismatch
  else
    let author_match := art.authors.any fun a =>
      let last := pyLower a.lastName
      let fore := pyLower a.foreName
      let init := pyLower a.initials
      last == trackedLast full_name &&
        (pyStartswith init (trackedInitials full_name) ||
          (init == "" && pyStartswith fore (trackedFirst full_name)))
    if !author_match then .authorMismatch else .accepted

/-- `"; ".join(author_names)` with `author_names` built in the author loop
(script lines 211–212): lowercased `last init` per entry with a last name. -/
def joinedAuthorNames (art : Article) : String :=
  String.intercalate "; "
    ((art.authors.filter fun a => pyLower a.lastName != "").map fun a =>
      pyStrip (pyLower a.lastName ++ " " ++ pyLower a.initials))

/-- The row appended for an accepted article (script lines 239–247). -/
def rowOf (art : Article) : Row :=
  { pmid := art.pmid
    title := art.title
    journal := art.journal
    pub_year := art.pubYear
    doi := art.doi
    authors := joinedAuthorNames art
    pubmed_url := "https://pubmed.ncbi.nlm.nih.gov/" ++ art.pmid ++ "/"
    tracked_author := "" }

/-- What one efetch chunk response looks like to the script: either
`ET.fromstring` raises on the chunk's XML (`malformed`), or it yields the
listed articles. -/
inductive ChunkResponse where
  | malformed
  | parsed (articles : List Article)

/-- Worker for `chunksOf`: `acc` holds the current chunk reversed. -/
def chunksAux (n : Nat) : List String → List String → List (List String)
  | [], acc => if acc.isEmpty then [] else [acc.reverse]
  | x :: xs, acc =>
    if acc.length + 1 == n then (acc.reverse ++ [x]) :: chunksAux n xs []
    else chunksAux n xs (x :: acc)

/-- `pmids[i:i+200]` chunking of the efetch loop (script line 155). -/
def chunksOf (n : Nat) (pmids : List String) : List (List String) :=
  chunksAux n pmids []

/-- The chunk loop of `efetch_details` over already-chunked pmid lists:
a malformed chunk response makes `ET.fromstring` raise (line 171), and
neither `efetch_details` nor `main` catches it, so the whole call errors. -/
def runChunks (full_name : String) (affiliations : List String)
    (oracle : List String → ChunkResponse) :
    List (List String) → Except Unit (List Row)
  | [] => .ok []
  | c :: cs =>
    match oracle c with
    | .malformed => .error ()
    | .parsed articles =>
      let accepted := articles.filterMap fun art =>
        if matchArticle full_name affiliations art = .accepted then
          some (rowOf art)
        else none
      match runChunks full_name affiliations oracle cs with
      | .error e => .error e
      | .ok rest => .ok (accepted ++ rest)

/-- `efetch_details` (script lines 130–249): batch the pmids into chunks of
200 and process each chunk's response with the two-stage filter. -/
def efetch_details (full_name : String) (affiliations : List String)
    (oracle : List String → ChunkResponse) (pmids : List String) :
    Except Unit (List Row) :=
  runChunks full_name affiliations oracle (chunksOf 200 pmids)

/-- One entry of the `authors.yaml` roster as `main` reads it
(`a["full_name"]`, `a["affiliations"]`). -/
structure AuthorCfg where
  full_name : String
  affiliations : List String
deriving DecidableEq

/-- The date-window state `main` computes at lines 299–319: `mindate`,
`maxdate`, the `update_state` flag and the run's initial `seen` set. -/
structure WindowResult where
  mindate : String
  maxdate : String
  update_state : Bool
  seen : Finset String
deriving DecidableEq

/-- The date-window logic of `main` (script lines 299–319).  `settings.get`
results are `Option String` (`none` when the key is absent); `iso_to_ymd`
stands for `ymd(iso_to_utc_dt(·))`, and `nowYmd` / `thirtyAgoYmd` for
`ymd(now)` / `ymd(now - timedelta(days=30))`. -/
def resolveWindow (settings_starting settings_ending : Option String)
    (state_seen : List String) (state_last_run : Option String)
    (iso_to_ymd : String → String) (nowYmd thirtyAgoYmd : String) :
    WindowResult :=
  let settings_start := pyStrip (settings_starting.getD "")
  let settings_end := pyStrip (settings_ending.getD "")
  if settings_start != "" then
    { mindate := settings_start
      maxdate := if settings_end != "" then settings_end else nowYmd
      update_state := false
      seen := ∅ }
  else
    { mindate := match state_last_run with
        | some lr => iso_to_ymd lr
        | none => thirtyAgoYmd
      maxdate := nowYmd
      update_state := true
      seen := state_seen.toFinset }

/-- State accumulated by `main`'s author loop: `all_rows`, the mutable
`seen` set, and the trace of pmid lists handed to `efetch_details`. -/
structure LoopResult where
  all_rows : List Row
  seen : Finset String
  fetchCalls : List (List String)
deriving DecidableEq

/-- The per-author loop of `main` (script lines 328–358).  `searchFn` is the
network behind `esearch_pmids` keyed by the query string; `.error` stands
for the exception `http_get` re-raises after its four attempts (tenacity
`reraise=True`) or on a non-retryable response.  No stage of the loop is
inside a `try`, so any error propagates and ends the whole run. -/
def authorLoop (searchFn : String → Except Unit (List String))
    (oracle : List String → ChunkResponse) (mindate maxdate : String) :
    List AuthorCfg → Finset String → List Row → List (List String) →
    Except Unit LoopResult
  | [], seen, acc, calls => .ok ⟨acc, seen, calls⟩
  | a :: rest, seen, acc, calls =>
    match build_search_name a.full_name with
    | .error _ => .error ()
    | .ok search_name =>
      match searchFn (build_query search_name mindate maxdate) with
      | .error _ => .error ()
      | .ok pmids =>
        let new_pmids := pmids.filter fun p => decide (p ∉ seen)
        match efetch_details a.full_name a.affiliations oracle new_pmids with
        | .error _ => .error ()
        | .ok rows =>
          authorLoop searchFn oracle mindate maxdate rest
            (seen ∪ new_pmids.toFinset)
            (acc ++ rows.map fun r => { r with tracked_author := a.full_name })
            (calls ++ [new_pmids])

/-- `EXPECTED_COLS` (script lines 363–372). -/
def EXPECTED_COLS : List String :=
  ["pmid", "title", "journal", "pub_year", "doi", "authors", "pubmed_url",
   "tracked_author"]

/-- A row in `EXPECTED_COLS` order, as the DataFrame columns fix it. -/
def rowToList (r : Row) : List String :=
  [r.pmid, r.title, r.journal, r.pub_year, r.doi, r.authors, r.pubmed_url,
   r.tracked_author]

/-- The per-author worksheet content (script lines 384–402): header plus the
author's rows, or the single placeholder row when the filter is empty. -/
def authorSection (all_rows : List Row) (name : String) : List (List String) :=
  let sub := all_rows.filter fun r => r.tracked_author == name
  if sub.isEmpty then
    [["No publications found in this date window."]]
  else
    EXPECTED_COLS :: sub.map rowToList

/-- Everything observable at the end of a successful run of `main`: the
accumulated rows, the Master table, the per-author sections, the persisted
state (`none` when `update_state` is false; the script serializes the seen
set as the sorted list `sorted(seen)`, whose set content is recorded here),
the efetch call trace and the final seen set. -/
structure MainResult where
  rows : List Row
  master : List (List String)
  sections : List (String × List (List String))
  persisted : Option (String × Finset String)
  fetchCalls : List (List String)
  finalSeen : Finset String
deriving DecidableEq

/-- `main` (script lines 287–412): window logic, the author loop, the
Master table and per-author sections, and the end-of-run state commit
(`sorted(seen)`, incremental mode only; `nowIso` is `now.isoformat()`). -/
def runMain (settings_starting settings_ending : Option String)
    (state_seen : List String) (state_last_run : Option String)
    (iso_to_ymd : String → String) (nowYmd thirtyAgoYmd nowIso : String)
    (searchFn : String → Except Unit (List String))
    (oracle : List String → ChunkResponse)
    (authors : List AuthorCfg) : Except Unit MainResult :=
  let w := resolveWindow settings_starting settings_ending state_seen
    state_last_run iso_to_ymd nowYmd thirtyAgoYmd
  match authorLoop searchFn oracle w.mindate w.maxdate authors w.seen [] [] with
  | .error e => .error e
  | .ok lr =>
    .ok { rows := lr.all_rows
          master := EXPECTED_COLS :: lr.all_rows.map rowToList
          sections := authors.map fun a =>
            (a.full_name, authorSection lr.all_rows a.full_name)
          persisted := if w.update_state then some (nowIso, lr.seen) else none
          fetchCalls := lr.fetchCalls
          finalSeen := lr.seen }

/-! ## Specification-side definitions

Propositional readings of the matcher's stages and the run-level
aggregates the claims quantify over. -/

/-- The affiliation stage does not reject: either the record carries no
affiliation strings at all (inconclusive-pass), or some tracked keyword
occurs as a case-insensitive substring of some affiliation string. -/
def affStagePasses (affiliations : List String) (art : Article) : Prop :=
  art.affiliations = [] ∨
    ∃ kw ∈ affiliations, ∃ aff ∈ art.affiliations,
      ∃ p q, p ++ pyLower kw ++ q = pyLower aff

/-- The author-name acceptance criterion exactly as the claim words it:
some entry's last name equals the tracked last name (case-insensitive) and
EITHER the ENTRY's initials are a prefix of the TRACKED author's computed
initials OR, the entry having no initials, the ENTRY's fore-name is a
prefix of the TRACKED author's first given name. -/
def claimAuthorAccept (full_name : String) (art : Article) : Prop :=
  ∃ a ∈ art.authors, pyLower a.lastName = trackedLast full_name ∧
    ((∃ t, pyLower a.initials ++ t = trackedInitials full_name) ∨
      (pyLower a.initials = "" ∧
        ∃ t, pyLower a.foreName ++ t = trackedFirst full_name))

/-- The author-name acceptance criterion the code implements (the prefix
tests point the other way): the TRACKED author's computed initials are a
prefix of the ENTRY's initials, or — the entry having no initials — the
TRACKED author's first given name is a prefix of the ENTRY's fore-name. -/
def codeAuthorAccept (full_name : String) (art : Article) : Prop :=
  ∃ a ∈ art.authors, pyLower a.lastName = trackedLast full_name ∧
    ((∃ t, trackedInitials full_name ++ t = pyLower a.initials) ∨
      (pyLower a.initials = "" ∧
        ∃ t, trackedFirst full_name ++ t = pyLower a.foreName))

/-- The initials of `build_search_name` as the spec words them: first
letter of the first token, concatenated with the first letter of the first
middle token when middle tokens exist. -/
def specInitials (parts : List String) : String :=
  firstChar (parts.headD "") ++
    (match (parts.drop 1).dropLast with
      | [] => ""
      | m :: _ => firstChar m)

/-- All identifiers the searches return across the author list (the union
of the successful `esearch_pmids` results of a run). -/
def searchedSet (sf : String → Except Unit (List String)) (md xd : String) :
    List AuthorCfg → Finset String
  | [] => ∅
  | a :: rest =>
    (match build_search_name a.full_name with
      | .error _ => ∅
      | .ok sn =>
        match sf (build_query sn md xd) with
        | .error _ => ∅
        | .ok pmids => pmids.toFinset) ∪ searchedSet sf md xd rest

/-! ## Concrete fixtures for counterexamples and witnesses -/

/-- A record with no affiliation strings whose only author entry is
`Leon, initials R`: its initials are a proper prefix of the tracked
initials `rl` of `"Rachel L Leon"`. -/
def artC1 : Article := ⟨"1", [], [⟨"Leon", "", "R"⟩], "", "", "", ""⟩

/-- A record whose author entry's initials `RL` extend the tracked
initials `rl` of `"Rachel L Leon"`. -/
def artC1b : Article := ⟨"2", [], [⟨"Leon", "", "RL"⟩], "", "", "", ""⟩

/-- A record matching `"Jane A Smith"` that only the second efetch chunk
returns. -/
def artC2 : Article := ⟨"201", [], [⟨"Smith", "", "JA"⟩], "", "", "", ""⟩

/-- Detail responses where the first chunk's XML is malformed and any
chunk containing pmid `"201"` parses to the matching record. -/
def oracleC2 : List String → ChunkResponse :=
  fun c => if c.contains "201" then .parsed [artC2] else .malformed

/-- 201 pmids: one full chunk of 200 and one overflow pmid. -/
def pmidsC2 : List String := List.replicate 200 "7" ++ ["201"]

/-- A search backend that fails (retries exhausted) exactly on the first
tracked author's query and returns pmid `"7"` for every other query. -/
def sfC3 : String → Except Unit (List String) :=
  fun q =>
    if q = build_query "Smith JA" "2025/01/01" "2025/10/12" then .error ()
    else .ok ["7"]

/-- A record accepted for `"Rachel L Leon"`. -/
def artC3 : Article := ⟨"7", [], [⟨"Leon", "", "RL"⟩], "T", "J", "2025", "D"⟩

/-- Detail responses that always parse to the matching record. -/
def oracleC3 : List String → ChunkResponse := fun _ => .parsed [artC3]

/-- The successful-run result for the second author alone under `sfC3`. -/
def resC3 : MainResult :=
  { rows := [{ rowOf artC3 with tracked_author := "Rachel L Leon" }]
    master := [EXPECTED_COLS,
      rowToList { rowOf artC3 with tracked_author := "Rachel L Leon" }]
    sections := [("Rachel L Leon",
      EXPECTED_COLS ::
        [rowToList { rowOf artC3 with tracked_author := "Rachel L Leon" }])]
    persisted := some ("NOWISO", {"7"})
    fetchCalls := [["7"]]
    finalSeen := {"7"} }

/-- A search backend returning pmid `"9"` for every query. -/
def sfC7 : String → Except Unit (List String) := fun _ => .ok ["9"]

/-- Detail responses that parse to no articles. -/
def oracleC7 : List String → ChunkResponse := fun _ => .parsed []

/-- The result of the manual-mode run with an inverted date window: the
run completes, the author is processed, nothing is persisted. -/
def resC7 : MainResult :=
  { rows := []
    master := [EXPECTED_COLS]
    sections := [("Jane Smith", [["No publications found in this date window."]])]
    persisted := none
    fetchCalls := [["9"]]
    finalSeen := {"9"} }

/-- A search backend returning pmid `"5"` for every query. -/
def sfC9 : String → Except Unit (List String) := fun _ => .ok ["5"]

/-- Detail responses that parse to no articles, so every author ends with
zero accepted records. -/
def oracleC9 : List String → ChunkResponse := fun _ => .parsed []

/-- Decidable equality for `Except`, so that concrete runs can be checked
by `decide`. -/
instance {e a : Type} [DecidableEq e] [DecidableEq a] :
    DecidableEq (Except e a) := fun x y =>
  match x, y with
  | .error u, .error v =>
    if h : u = v then .isTrue (congrArg Except.error h)
    else .isFalse fun hc => h (Except.error.inj hc)
  | .error _, .ok _ => .isFalse fun hc => Except.noConfusion hc
  | .ok _, .error _ => .isFalse fun hc => Except.noConfusion hc
  | .ok u, .ok v =>
    if h : u = v then .isTrue (congrArg Except.ok h)
    else .isFalse fun hc => h (Except.ok.inj hc)

/-- A search backend returning pmid `"8"` for every query. -/
def sfC3w : String → Except Unit (List String) := fun _ => .ok ["8"]

/-- Detail responses whose XML never parses. -/
def oracleC3m : List String → ChunkResponse := fun _ => .malformed

/-- A search backend returning pmids `"1"` and `"2"` for every query. -/
def sfC5 : String → Except Unit (List String) := fun _ => .ok ["1", "2"]

/-- Detail responses that parse to no articles. -/
def oracleC5 : List String → ChunkResponse := fun _ => .parsed []

/-- The result of the incremental run under `sfC5` with `"1"` already seen:
only `"2"` is fetched, and the persisted set is `{"1", "2"}`. -/
def resC5 : MainResult :=
  { rows := []
    master := [EXPECTED_COLS]
    sections := [("Jane Smith", [["No publications found in this date window."]])]
    persisted := some ("NOW", {"1", "2"})
    fetchCalls := [["2"]]
    finalSeen := {"1", "2"} }

/-- A search backend returning pmid `"3"` for every query. -/
def sfC6 : String → Except Unit (List String) := fun _ => .ok ["3"]

/-- Detail responses that parse to no articles. -/
def oracleC6 : List String → ChunkResponse := fun _ => .parsed []

/-- The result of the incremental run under `sfC6` with `"1"` already seen. -/
def resC6 : MainResult :=
  { rows := []
    master := [EXPECTED_COLS]
    sections := [("Ann Lee", [["No publications found in this date window."]])]
    persisted := some ("NOW", {"1", "3"})
    fetchCalls := [["3"]]
    finalSeen := {"1", "3"} }

/-- The result of the run under `sfC9`: the single author has zero accepted
records and ends with the placeholder section. -/
def resC9 : MainResult :=
  { rows := []
    master := [EXPECTED_COLS]
    sections := [("Ann Lee", [["No publications found in this date window."]])]
    persisted := some ("NOW", {"5"})
    fetchCalls := [["5"]]
    finalSeen := {"5"} }

/-! ## Bridging lemmas

The boolean string primitives agree with their propositional readings:
`pyStartswith s pre` holds exactly when `pre` is a prefix of `s` in the
`∃ t, pre ++ t = s` sense, and `pyInStr needle hay` exactly when `needle`
occurs as a substring of `hay`. -/

theorem isPrefixOf_iff_ex (l₁ l₂ : List Char) :
    l₁.isPrefixOf l₂ = true ↔ ∃ t, l₁ ++ t = l₂ := by
  induction l₁ generalizing l₂ with
  | nil => simp [List.isPrefixOf]
  | cons a as ih =>
    cases l₂ with
    | nil => simp [List.isPrefixOf]
    | cons b bs =>
      simp [List.isPrefixOf, ih, List.cons_append]

theorem tailsList_any_iff (needle hay : List Char) :
    ((tailsList hay).any fun t => needle.isPrefixOf t) = true ↔
      ∃ p q, p ++ needle ++ q = hay := by
  induction hay with
  | nil =>
    simp [tailsList, isPrefixOf_iff_ex]
  | cons c cs ih =>
    simp only [tailsList, List.any_cons, Bool.or_eq_true, isPrefixOf_iff_ex, ih]
    constructor
    · rintro (⟨t, ht⟩ | ⟨p, q, h⟩)
      · exact ⟨[], t, by simpa using ht⟩
      · exact ⟨c :: p, q, by simp [h]⟩
    · rintro ⟨p, q, h⟩
      cases p with
      | nil => exact Or.inl ⟨q, by simpa using h⟩
      | cons x xs =>
        simp only [List.cons_append, List.cons.injEq] at h
        exact Or.inr ⟨xs, q, h.2⟩

theorem pyStartswith_iff (s pre : String) :
    pyStartswith s pre = true ↔ ∃ t : String, pre ++ t = s := by
  obtain ⟨a⟩ := pre
  obtain ⟨b⟩ := s
  rw [pyStartswith, isPrefixOf_iff_ex]
  constructor
  · rintro ⟨t, ht⟩
    exact ⟨⟨t⟩, congrArg String.mk ht⟩
  · rintro ⟨⟨t⟩, ht⟩
    exact ⟨t, congrArg String.data ht⟩

theorem pyInStr_iff (needle hay : String) :
    pyInStr needle hay = true ↔ ∃ p q : String, p ++ needle ++ q = hay := by
  obtain ⟨n⟩ := needle
  obtain ⟨h⟩ := hay
  rw [pyInStr, tailsList_any_iff]
  constructor
  · rintro ⟨p, q, hpq⟩
    exact ⟨⟨p⟩, ⟨q⟩, congrArg String.mk hpq⟩
  · rintro ⟨⟨p⟩, ⟨q⟩, hpq⟩
    exact ⟨p, q, congrArg String.data hpq⟩

theorem union_filter_toFinset (seen : Finset String) (pmids : List String) :
    seen ∪ (pmids.filter fun p => decide (p ∉ seen)).toFinset =
      seen ∪ pmids.toFinset := by
  ext x
  simp only [Finset.mem_union, List.mem_toFinset, List.mem_filter,
    decide_eq_true_eq]
  tauto

end PubMedTracker

namespace PubMedTracker

/-! ## Matcher characterization -/

theorem affiliation_any_iff (kws : List String) (art : Article) :
    (kws.any fun kw => art.affiliations.any fun aff =>
      pyInStr (pyLower kw) (pyLower aff)) = true ↔
      ∃ kw ∈ kws, ∃ aff ∈ art.affiliations,
        ∃ p q, p ++ pyLower kw ++ q = pyLower aff := by
  simp [List.any_eq_true, pyInStr_iff]

theorem author_any_iff (full_name : String) (art : Article) :
    (art.authors.any fun a =>
      pyLower a.lastName == trackedLast full_name &&
        (pyStartswith (pyLower a.initials) (trackedInitials full_name) ||
          (pyLower a.initials == "" &&
            pyStartswith (pyLower a.foreName) (trackedFirst full_name)))) = true ↔
      codeAuthorAccept full_name art := by
  simp [codeAuthorAccept, List.any_eq_true, pyStartswith_iff]

theorem matchArticle_spec (full_name : String) (kws : List String) (art : Article) :
    (matchArticle full_name kws art = .affiliationMismatch ↔
      ¬ affStagePasses kws art) ∧
    (matchArticle full_name kws art = .accepted ↔
      (affStagePasses kws art ∧ codeAuthorAccept full_name art)) ∧
    (matchArticle full_name kws art = .authorMismatch ↔
      (affStagePasses kws art ∧ ¬ codeAuthorAccept full_name art)) := by
  have haff := affiliation_any_iff kws art
  have hauth := author_any_iff full_name art
  cases hb : (kws.any fun kw => art.affiliations.any fun aff =>
      pyInStr (pyLower kw) (pyLower aff)) with
  | true =>
    have hpass : affStagePasses kws art := Or.inr (haff.mp hb)
    cases ha : (art.authors.any fun a =>
        pyLower a.lastName == trackedLast full_name &&
          (pyStartswith (pyLower a.initials) (trackedInitials full_name) ||
            (pyLower a.initials == "" &&
              pyStartswith (pyLower a.foreName) (trackedFirst full_name)))) with
    | true =>
      have hacc : codeAuthorAccept full_name art := hauth.mp ha
      simp [matchArticle, hb, ha, hpass, hacc]
    | false =>
      have hnacc : ¬ codeAuthorAccept full_name art := fun h => by
        rw [← hauth] at h; rw [h] at ha; cases ha
      simp [matchArticle, hb, ha, hpass, hnacc]
  | false =>
    have hnex : ¬ ∃ kw ∈ kws, ∃ aff ∈ art.affiliations,
        ∃ p q, p ++ pyLower kw ++ q = pyLower aff := fun h => by
      rw [← haff] at h; rw [h] at hb; cases hb
    cases he : art.affiliations.isEmpty with
    | true =>
      have hemp : art.affiliations = [] := by
        simpa [List.isEmpty_iff] using he
      have hpass : affStagePasses kws art := Or.inl hemp
      cases ha : (art.authors.any fun a =>
          pyLower a.lastName == trackedLast full_name &&
            (pyStartswith (pyLower a.initials) (trackedInitials full_name) ||
              (pyLower a.initials == "" &&
                pyStartswith (pyLower a.foreName) (trackedFirst full_name)))) with
      | true =>
        have hacc : codeAuthorAccept full_name art := hauth.mp ha
        simp [matchArticle, hb, he, ha, hpass, hacc]
      | false =>
        have hnacc : ¬ codeAuthorAccept full_name art := fun h => by
          rw [← hauth] at h; rw [h] at ha; cases ha
        simp [matchArticle, hb, he, ha, hpass, hnacc]
    | false =>
      have hne : art.affiliations ≠ [] := by
        simp [List.isEmpty_iff] at he; exact he
      have hnpass : ¬ affStagePasses kws art := by
        rintro (h | h)
        · exact hne h
        · exact hnex h
      simp [matchArticle, hb, he, hnpass]

end PubMedTracker

namespace PubMedTracker

/-! ## Author-loop invariants -/

theorem authorLoop_seen_eq (sf : String → Except Unit (List String))
    (o : List String → ChunkResponse) (md xd : String) :
    ∀ (authors : List AuthorCfg) (seen : Finset String) (acc : List Row)
      (calls : List (List String)) (res : LoopResult),
    authorLoop sf o md xd authors seen acc calls = .ok res →
    res.seen = seen ∪ searchedSet sf md xd authors := by
  intro authors
  induction authors with
  | nil =>
    intro seen acc calls res h
    simp only [authorLoop] at h
    cases h
    simp [searchedSet]
  | cons a rest ih =>
    intro seen acc calls res h
    simp only [authorLoop] at h
    split at h
    · exact (Except.noConfusion h)
    · rename_i sn hbn
      split at h
      · exact (Except.noConfusion h)
      · rename_i pmids hsf
        split at h
        · exact (Except.noConfusion h)
        · rename_i rows hef
          have hres := ih _ _ _ _ h
          rw [hres]
          simp only [searchedSet, hbn, hsf]
          ext x
          simp only [Finset.mem_union, List.mem_toFinset, List.mem_filter,
            decide_eq_true_eq, Bool.not_eq_true', decide_eq_false_iff_not,
            Finset.mem_filter]
          constructor
          · rintro ((hx | hx) | hx)
            · exact Or.inl hx
            · exact Or.inr (Or.inl hx.1)
            · exact Or.inr (Or.inr hx)
          · rintro (hx | (hx | hx))
            · exact Or.inl (Or.inl hx)
            · by_cases hxs : x ∈ seen
              · exact Or.inl (Or.inl hxs)
              · exact Or.inl (Or.inr ⟨hx, by simpa using hxs⟩)
            · exact Or.inr hx

theorem authorLoop_calls_disjoint (sf : String → Except Unit (List String))
    (o : List String → ChunkResponse) (md xd : String) (S : Finset String) :
    ∀ (authors : List AuthorCfg) (seen : Finset String) (acc : List Row)
      (calls : List (List String)) (res : LoopResult),
    authorLoop sf o md xd authors seen acc calls = .ok res →
    S ⊆ seen →
    (∀ c ∈ calls, ∀ p ∈ S, p ∉ c) →
    ∀ c ∈ res.fetchCalls, ∀ p ∈ S, p ∉ c := by
  intro authors
  induction authors with
  | nil =>
    intro seen acc calls res h _ hcalls
    simp only [authorLoop] at h
    cases h
    exact hcalls
  | cons a rest ih =>
    intro seen acc calls res h hsub hcalls
    simp only [authorLoop] at h
    split at h
    · exact (Except.noConfusion h)
    · rename_i sn hbn
      split at h
      · exact (Except.noConfusion h)
      · rename_i pmids hsf
        split at h
        · exact (Except.noConfusion h)
        · rename_i rows hef
          refine ih _ _ _ _ h (hsub.trans Finset.subset_union_left) ?_
          intro c hc p hp
          rcases List.mem_append.mp hc with hcm | hcm
          · exact hcalls c hcm p hp
          · have hcnew : c = pmids.filter fun q => decide (q ∉ seen) := by
              simpa using hcm
            subst hcnew
            intro hmem
            have hdec := (List.mem_filter.mp hmem).2
            simp only [decide_eq_true_eq] at hdec
            exact hdec (hsub hp)

theorem authorLoop_calls_in_final (sf : String → Except Unit (List String))
    (o : List String → ChunkResponse) (md xd : String) :
    ∀ (authors : List AuthorCfg) (seen : Finset String) (acc : List Row)
      (calls : List (List String)) (res : LoopResult),
    authorLoop sf o md xd authors seen acc calls = .ok res →
    (∀ c ∈ calls, ∀ p ∈ c, p ∈ seen) →
    ∀ c ∈ res.fetchCalls, ∀ p ∈ c, p ∈ res.seen := by
  intro authors
  induction authors with
  | nil =>
    intro seen acc calls res h hcalls
    simp only [authorLoop] at h
    cases h
    exact hcalls
  | cons a rest ih =>
    intro seen acc calls res h hcalls
    simp only [authorLoop] at h
    split at h
    · exact (Except.noConfusion h)
    · rename_i sn hbn
      split at h
      · exact (Except.noConfusion h)
      · rename_i pmids hsf
        split at h
        · exact (Except.noConfusion h)
        · rename_i rows hef
          refine ih _ _ _ _ h ?_
          intro c hc p hp
          rcases List.mem_append.mp hc with hcm | hcm
          · exact Finset.mem_union_left _ (hcalls c hcm p hp)
          · have hcnew : c = pmids.filter fun q => decide (q ∉ seen) := by
              simpa using hcm
            subst hcnew
            exact Finset.mem_union_right _ (List.mem_toFinset.mpr hp)

end PubMedTracker

/-! ## Claim theorems: candidate matcher (C1, C4, C10) -/

namespace PubMedTracker

/-- C1 counterexample: the claim's acceptance criterion and the code
disagree at a concrete record.  For tracked author `"Rachel L Leon"`
(computed initials `rl`) and a record with no affiliation strings whose
only author entry is `Leon` with initials `R`, the entry's initials ARE a
prefix of the tracked initials, so the claim as stated accepts the record;
the code rejects it with AUTHOR_MISMATCH because it tests
`init.startswith(tracked_initials)`, i.e. the opposite prefix direction. -/
theorem C1_counterexample :
    claimAuthorAccept "Rachel L Leon" artC1 ∧
    artC1.affiliations = [] ∧
    matchArticle "Rachel L Leon" [] artC1 = .authorMismatch := by
  refine ⟨⟨⟨"Leon", "", "R"⟩, ?_, ?_, Or.inl ⟨"l", ?_⟩⟩, rfl, by decide⟩
  · simp [artC1]
  · decide
  · decide

/-- C1 amended: for every candidate record and tracked author, once the
affiliation stage passes, the author-name stage accepts the record exactly
when some author entry's last name equals the tracked author's last name
(case-insensitive) and EITHER the TRACKED author's computed initials are a
prefix of that ENTRY's initials OR, when the entry has no initials, the
TRACKED author's first given name is a prefix of the ENTRY's fore-name
(the two prefix directions are the reverse of the claim's); otherwise the
record is rejected with reason AUTHOR_MISMATCH. -/
theorem C1_authorStage (full_name : String) (kws : List String) (art : Article)
    (hpass : affStagePasses kws art) :
    (matchArticle full_name kws art = .accepted ↔
      codeAuthorAccept full_name art) ∧
    (matchArticle full_name kws art = .authorMismatch ↔
      ¬ codeAuthorAccept full_name art) := by
  have hs := matchArticle_spec full_name kws art
  exact ⟨⟨fun h => (hs.2.1.mp h).2, fun h => hs.2.1.mpr ⟨hpass, h⟩⟩,
    ⟨fun h => (hs.2.2.mp h).2, fun h => hs.2.2.mpr ⟨hpass, h⟩⟩⟩

/-- C1 witness: the amended theorem applied at tracked author
`"Rachel L Leon"` and a record whose entry `Leon RL` carries the tracked
initials as a prefix — the record is accepted. -/
theorem C1_witness :
    matchArticle "Rachel L Leon" [] artC1b = .accepted :=
  (C1_authorStage "Rachel L Leon" [] artC1b (Or.inl rfl)).1.mpr
    ⟨⟨"Leon", "", "RL"⟩, by simp [artC1b], by decide, Or.inl ⟨"", by decide⟩⟩

/-- C4: for every candidate record, if the record carries no affiliation
strings at all the affiliation stage never rejects (inconclusive-pass:
the record falls through to the author-name stage); if affiliation strings
exist but none contains, as a case-insensitive substring, any of the
tracked author's affiliation keywords, the record is rejected with reason
AFFILIATION_MISMATCH.  The record with no affiliation strings may still be
accepted, shown at a concrete matching record. -/
theorem C4_affiliationStage :
    (∀ (fn : String) (kws : List String) (art : Article),
      art.affiliations = [] →
      matchArticle fn kws art ≠ .affiliationMismatch) ∧
    (∀ (fn : String) (kws : List String) (art : Article),
      art.affiliations ≠ [] →
      (¬ ∃ kw ∈ kws, ∃ aff ∈ art.affiliations,
        ∃ p q, p ++ pyLower kw ++ q = pyLower aff) →
      matchArticle fn kws art = .affiliationMismatch) ∧
    matchArticle "Jane A Smith" ["General Hospital"]
      ⟨"101", [], [⟨"Smith", "", "JA"⟩], "", "", "", ""⟩ = .accepted := by
  refine ⟨?_, ?_, by decide⟩
  · intro fn kws art hemp h
    exact ((matchArticle_spec fn kws art).1.mp h) (Or.inl hemp)
  · intro fn kws art hne hnex
    refine (matchArticle_spec fn kws art).1.mpr ?_
    rintro (h | h)
    · exact hne h
    · exact hnex h

/-- C4 witness: the theorem's rejection branch applied at the spec's
end-to-end example — record `102` with affiliation `"Other Clinic"` for
tracked keywords `["General Hospital"]` is rejected with
AFFILIATION_MISMATCH. -/
theorem C4_witness :
    matchArticle "Jane A Smith" ["General Hospital"]
      ⟨"102", ["Other Clinic"], [⟨"Smith", "", "J"⟩], "", "", "", ""⟩ =
      .affiliationMismatch := by
  apply C4_affiliationStage.2.1
  · decide
  · rintro ⟨kw, hkw, aff, haff, p, q, hpq⟩
    have hkw' : kw = "General Hospital" := by simpa using hkw
    have haff' : aff = "Other Clinic" := by simpa using haff
    subst hkw'; subst haff'
    have hsub : pyInStr (pyLower "General Hospital") (pyLower "Other Clinic") = true :=
      (pyInStr_iff _ _).mpr ⟨p, q, hpq⟩
    exact absurd hsub (by decide)

/-- C10 (implicit): if a tracked author's affiliation keyword list is
empty, every candidate record carrying at least one affiliation string
fails the affiliation stage with AFFILIATION_MISMATCH, and only records
with no affiliation strings at all can reach the author-name stage and be
accepted. -/
theorem C10_emptyKeywords :
    (∀ (fn : String) (art : Article), art.affiliations ≠ [] →
      matchArticle fn [] art = .affiliationMismatch) ∧
    (∀ (fn : String) (art : Article), matchArticle fn [] art = .accepted →
      art.affiliations = []) := by
  constructor
  · intro fn art hne
    refine (matchArticle_spec fn [] art).1.mpr ?_
    rintro (h | ⟨kw, hkw, _⟩)
    · exact hne h
    · simp at hkw
  · intro fn art hacc
    rcases ((matchArticle_spec fn [] art).2.1.mp hacc).1 with h | ⟨kw, hkw, _⟩
    · exact h
    · simp at hkw

/-- C10 witness: the theorem applied at a record with an affiliation
string and an empty keyword list — rejected with AFFILIATION_MISMATCH. -/
theorem C10_witness :
    matchArticle "Jane A Smith" []
      ⟨"103", ["General Hospital Dept."], [⟨"Smith", "", "JA"⟩],
        "", "", "", ""⟩ = .affiliationMismatch :=
  C10_emptyKeywords.1 "Jane A Smith" _ (by decide)

end PubMedTracker

namespace PubMedTracker

/-! ## Claim theorems: search-name builder (C8) and chunk parsing (C2) -/

theorem firstChar_len (s : String) : (firstChar s).length ≤ 1 := by
  have h : (firstChar s).length = (s.toList.take 1).length := rfl
  rw [h, List.length_take]
  exact Nat.min_le_left _ _

theorem string_length_append (a b : String) :
    (a ++ b).length = a.length + b.length := by
  obtain ⟨x⟩ := a
  obtain ⟨y⟩ := b
  show (x ++ y).length = x.length + y.length
  exact List.length_append x y

theorem specInitials_len (parts : List String) :
    (specInitials parts).length ≤ 2 := by
  rw [specInitials]
  cases h : (parts.drop 1).dropLast with
  | nil =>
    rw [string_length_append]
    have hmr : (match ([] : List String) with
      | [] => ""
      | m :: _ => firstChar m) = "" := rfl
    rw [hmr]
    have h1 := firstChar_len (parts.headD "")
    have hz : ("" : String).length = 0 := rfl
    omega
  | cons m ms =>
    rw [string_length_append]
    have hmr : (match (m :: ms : List String) with
      | [] => ""
      | m :: _ => firstChar m) = firstChar m := rfl
    rw [hmr]
    have h1 := firstChar_len (parts.headD "")
    have h2 := firstChar_len m
    omega

/-- C8: for every full name with at least two whitespace-separated
tokens, `build_search_name` returns `"{lastToken} {initials}"` where the
initials are the first letter of the first token followed by the first
letter of the first middle token when middle tokens exist (at most two
characters, later middle tokens contributing nothing); `"Rachel L Leon"`
yields `"Leon RL"`, `"Rachel Leon"` yields `"Leon R"`, and a single-token
name raises the validation error. -/
theorem C8_build_search_name :
    (∀ s : String, 2 ≤ (pySplit s).length →
      build_search_name s =
        .ok ((pySplit s).getLastD "" ++ " " ++ specInitials (pySplit s)) ∧
      (specInitials (pySplit s)).length ≤ 2) ∧
    build_search_name "Rachel L Leon" = .ok "Leon RL" ∧
    build_search_name "Rachel Leon" = .ok "Leon R" ∧
    (∀ s : String, (pySplit s).length = 1 →
      build_search_name s = .error ("Invalid full_name: " ++ s)) := by
  refine ⟨?_, by rfl, by rfl, ?_⟩
  · intro s hs
    refine ⟨?_, specInitials_len _⟩
    simp only [build_search_name, specInitials]
    rw [if_neg (by omega)]
  · intro s hs
    simp only [build_search_name]
    rw [if_pos (by omega)]

/-- C8 witness: the general clause applied at `"Rachel L Leon"` and the
error clause at the single token `"Leon"`. -/
theorem C8_witness :
    (build_search_name "Rachel L Leon" =
      .ok ((pySplit "Rachel L Leon").getLastD "" ++ " " ++
        specInitials (pySplit "Rachel L Leon")) ∧
      (specInitials (pySplit "Rachel L Leon")).length ≤ 2) ∧
    build_search_name "Leon" = .error ("Invalid full_name: " ++ "Leon") :=
  ⟨C8_build_search_name.1 "Rachel L Leon" (by decide),
    C8_build_search_name.2.2.2 "Leon" (by decide)⟩

/-- C2 (code bug): a chunk whose XML fails to parse makes the whole
`efetch_details` call error out — `ET.fromstring` raises and no handler
exists — so the remaining records and chunks are NOT processed, contrary
to the claim.  At 201 pmids whose first chunk of 200 is malformed, the
call errors even though the second chunk alone yields an accepted
record. -/
theorem C2_parseFailureAborts :
    efetch_details "Jane A Smith" [] oracleC2 pmidsC2 = .error () ∧
    efetch_details "Jane A Smith" [] oracleC2 ["201"] = .ok [rowOf artC2] := by
  exact ⟨rfl, rfl⟩

end PubMedTracker

namespace PubMedTracker

/-! ## Claim theorems: window resolution (C7) and fetch-failure behavior (C3) -/

theorem resolveWindow_incremental (ss se : Option String) (st : List String)
    (lr : Option String) (iso : String → String) (nowY thirtyY : String)
    (h : pyStrip (ss.getD "") = "") :
    resolveWindow ss se st lr iso nowY thirtyY =
      { mindate := match lr with | some l => iso l | none => thirtyY
        maxdate := nowY
        update_state := true
        seen := st.toFinset } := by
  simp [resolveWindow, h]

/-- C7 amended: no validation of the manual date window exists.  When
both a manual start and a manual end date are configured (non-blank), the
window resolution returns them as `mindate`/`maxdate` exactly as given —
in particular when the end precedes the start — with MANUAL mode
(`update_state = false`) and an empty seen set; no ConfigError path
exists. -/
theorem C7_noWindowValidation (s e : String) (st : List String)
    (lr : Option String) (iso : String → String) (nowY thirtyY : String)
    (hs : pyStrip s ≠ "") (he : pyStrip e ≠ "") :
    resolveWindow (some s) (some e) st lr iso nowY thirtyY =
      { mindate := pyStrip s
        maxdate := pyStrip e
        update_state := false
        seen := ∅ } := by
  simp [resolveWindow, hs, he]

/-- C7 counterexample: with manual start `2024/02/01` and manual end
`2024/01/01` (end precedes start), the run does NOT fail before any author
is processed: it completes, the author's detail fetch happens
(`fetchCalls = [["9"]]`), and nothing is persisted. -/
theorem C7_counterexample :
    runMain (some "2024/02/01") (some "2024/01/01") ["old"] none (fun x => x)
      "2025/10/12" "2025/09/12" "NOW" sfC7 oracleC7 [⟨"Jane Smith", []⟩]
      = .ok resC7 ∧
    resC7.fetchCalls = [["9"]] ∧ resC7.persisted = none := by
  exact ⟨by decide, rfl, rfl⟩

/-- C7 witness: the amended theorem applied at the inverted manual
window `2024/02/01 – 2024/01/01`. -/
theorem C7_witness :
    resolveWindow (some "2024/02/01") (some "2024/01/01") ["old"] none
      (fun x => x) "2025/10/12" "2025/09/12" =
      { mindate := "2024/02/01", maxdate := "2024/01/01",
        update_state := false, seen := ∅ } := by
  rw [C7_noWindowValidation "2024/02/01" "2024/01/01" ["old"] none
    (fun x => x) "2025/10/12" "2025/09/12" (by decide) (by decide)]
  decide

/-- C3 amended: a fetch failure (retries exhausted or non-transient
error) during one author's search or detail fetch aborts the ENTIRE run,
not just that author's query: the author loop has no handler, so the error
propagates, the remaining authors are never processed, and even the rows
accumulated for earlier authors are lost (no partial output). -/
theorem C3_fetchErrorAborts :
    (∀ (sf : String → Except Unit (List String))
      (o : List String → ChunkResponse) (md xd : String) (a : AuthorCfg)
      (rest : List AuthorCfg) (seen : Finset String) (acc : List Row)
      (calls : List (List String)),
      (∀ sn, build_search_name a.full_name = .ok sn →
        sf (build_query sn md xd) = .error ()) →
      authorLoop sf o md xd (a :: rest) seen acc calls = .error ()) ∧
    (∀ (sf : String → Except Unit (List String))
      (o : List String → ChunkResponse) (md xd : String) (a : AuthorCfg)
      (rest : List AuthorCfg) (seen : Finset String) (acc : List Row)
      (calls : List (List String)) (sn : String) (pmids : List String),
      build_search_name a.full_name = .ok sn →
      sf (build_query sn md xd) = .ok pmids →
      efetch_details a.full_name a.affiliations o
        (pmids.filter fun p => decide (p ∉ seen)) = .error () →
      authorLoop sf o md xd (a :: rest) seen acc calls = .error ()) := by
  constructor
  · intro sf o md xd a rest seen acc calls hfail
    cases hbn : build_search_name a.full_name with
    | error e => simp only [authorLoop, hbn]
    | ok sn => simp only [authorLoop, hbn, hfail sn hbn]
  · intro sf o md xd a rest seen acc calls sn pmids hbn hsf hef
    simp only [authorLoop, hbn, hsf, hef]

/-- C3 witness: the amended theorem's two clauses applied at a failing
search backend and at a detail fetch whose chunk XML never parses. -/
theorem C3_witness :
    authorLoop sfC3 oracleC3 "2025/01/01" "2025/10/12"
      [⟨"Jane A Smith", []⟩] ∅ [] [] = .error () ∧
    authorLoop sfC3w oracleC3m "2025/01/01" "2025/10/12"
      [⟨"Rachel L Leon", []⟩] ∅ [] [] = .error () := by
  constructor
  · refine C3_fetchErrorAborts.1 sfC3 oracleC3 _ _ _ _ _ _ _ ?_
    intro sn hsn
    have h1 : build_search_name "Jane A Smith" = .ok "Smith JA" := rfl
    rw [h1] at hsn
    cases hsn
    decide
  · exact C3_fetchErrorAborts.2 sfC3w oracleC3m _ _ _ _ _ _ _ "Leon RL" ["8"]
      rfl rfl rfl

/-- C3 counterexample: with two tracked authors where the first
author's search query fails, the whole run errors — no partial output —
although running the second author alone succeeds with one accepted
record.  This contradicts the claim that the run proceeds to the remaining
authors and still produces partial output. -/
theorem C3_counterexample :
    runMain none none [] (some "L") (fun _ => "2025/01/01") "2025/10/12"
      "2025/09/12" "NOWISO" sfC3 oracleC3
      [⟨"Jane A Smith", []⟩, ⟨"Rachel L Leon", []⟩] = .error () ∧
    runMain none none [] (some "L") (fun _ => "2025/01/01") "2025/10/12"
      "2025/09/12" "NOWISO" sfC3 oracleC3 [⟨"Rachel L Leon", []⟩]
      = .ok resC3 ∧
    resC3.rows.length = 1 := by
  exact ⟨by decide, by decide, rfl⟩

end PubMedTracker

namespace PubMedTracker

/-! ## Claim theorems: dedup tracker (C5, C6) and output reconciler (C9) -/

/-- C5: in INCREMENTAL mode an identifier present in the seen set at the
start of the run is never contained in any pmid list passed to the detail
fetcher during that run; in MANUAL mode (non-blank manual start date) the
run's seen set starts empty regardless of the persisted state. -/
theorem C5_dedupTracker :
    (∀ (ss se : Option String) (st : List String) (lr : Option String)
      (iso : String → String) (nowY thirtyY : String),
      pyStrip (ss.getD "") ≠ "" →
      (resolveWindow ss se st lr iso nowY thirtyY).seen = ∅) ∧
    (∀ (ss se : Option String) (st : List String) (lr : Option String)
      (iso : String → String) (nowY thirtyY nowIso : String)
      (sf : String → Except Unit (List String))
      (o : List String → ChunkResponse) (authors : List AuthorCfg)
      (res : MainResult),
      pyStrip (ss.getD "") = "" →
      runMain ss se st lr iso nowY thirtyY nowIso sf o authors = .ok res →
      ∀ c ∈ res.fetchCalls, ∀ p ∈ st, p ∉ c) := by
  constructor
  · intro ss se st lr iso nowY thirtyY h
    simp [resolveWindow, h]
  · intro ss se st lr iso nowY thirtyY nowIso sf o authors res hinc hrun
    have hw := resolveWindow_incremental ss se st lr iso nowY thirtyY hinc
    simp only [runMain] at hrun
    split at hrun
    · exact (Except.noConfusion hrun)
    · rename_i lres hloop
      cases hrun
      have hseen0 : (resolveWindow ss se st lr iso nowY thirtyY).seen =
          st.toFinset := by rw [hw]
      rw [hseen0] at hloop
      intro c hc p hp
      exact authorLoop_calls_disjoint sf o _ _ st.toFinset authors
        st.toFinset [] [] lres hloop (Finset.Subset.refl _)
        (fun c hc => absurd hc (List.not_mem_nil c)) c hc p
        (List.mem_toFinset.mpr hp)

/-- C5 witness: both clauses applied concretely — an incremental run
with `"1"` already seen fetches only `["2"]`, and a manual-mode window
resolution yields an empty seen set despite persisted `["1"]`. -/
theorem C5_witness :
    runMain none none ["1"] (some "L") (fun _ => "2025/01/01") "2025/10/12"
      "2025/09/12" "NOW" sfC5 oracleC5 [⟨"Jane Smith", []⟩] = .ok resC5 ∧
    (∀ c ∈ resC5.fetchCalls, ∀ p ∈ ["1"], p ∉ c) ∧
    (resolveWindow (some " 2024/01/01 ") none ["1"] none (fun x => x)
      "a" "b").seen = ∅ := by
  refine ⟨by decide, ?_, C5_dedupTracker.1 _ _ _ _ _ _ _ (by decide)⟩
  exact C5_dedupTracker.2 none none ["1"] (some "L") (fun _ => "2025/01/01")
    "2025/10/12" "2025/09/12" "NOW" sfC5 oracleC5 [⟨"Jane Smith", []⟩] resC5
    (by decide) (by decide)

/-- C6: in a successful INCREMENTAL run the seen set grows
monotonically (the initial set is contained in the final one), every
identifier handed to the detail fetcher ends up in the final seen set
whether or not its record was accepted, the final seen set equals the
initial set united with all identifiers returned by the searches, and the
persisted state records exactly that final set. -/
theorem C6_seenPersistence :
    ∀ (ss se : Option String) (st : List String) (lr : Option String)
      (iso : String → String) (nowY thirtyY nowIso : String)
      (sf : String → Except Unit (List String))
      (o : List String → ChunkResponse) (authors : List AuthorCfg)
      (res : MainResult),
    pyStrip (ss.getD "") = "" →
    runMain ss se st lr iso nowY thirtyY nowIso sf o authors = .ok res →
    st.toFinset ⊆ res.finalSeen ∧
    res.finalSeen = st.toFinset ∪
      searchedSet sf (resolveWindow ss se st lr iso nowY thirtyY).mindate
        nowY authors ∧
    (∀ c ∈ res.fetchCalls, ∀ p ∈ c, p ∈ res.finalSeen) ∧
    res.persisted = some (nowIso, res.finalSeen) := by
  intro ss se st lr iso nowY thirtyY nowIso sf o authors res hinc hrun
  have hw := resolveWindow_incremental ss se st lr iso nowY thirtyY hinc
  simp only [runMain] at hrun
  split at hrun
  · exact (Except.noConfusion hrun)
  · rename_i lres hloop
    cases hrun
    have hseen0 : (resolveWindow ss se st lr iso nowY thirtyY).seen =
        st.toFinset := by rw [hw]
    have hmax : (resolveWindow ss se st lr iso nowY thirtyY).maxdate =
        nowY := by rw [hw]
    have hupd : (resolveWindow ss se st lr iso nowY thirtyY).update_state =
        true := by rw [hw]
    rw [hseen0, hmax] at hloop
    have heq := authorLoop_seen_eq sf o _ nowY authors st.toFinset [] []
      lres hloop
    refine ⟨?_, ?_, ?_, ?_⟩
    · show st.toFinset ⊆ lres.seen
      rw [heq]
      exact Finset.subset_union_left
    · show lres.seen = st.toFinset ∪ searchedSet sf
        (resolveWindow ss se st lr iso nowY thirtyY).mindate nowY authors
      exact heq
    · show ∀ c ∈ lres.fetchCalls, ∀ p ∈ c, p ∈ lres.seen
      exact authorLoop_calls_in_final sf o _ nowY authors st.toFinset [] []
        lres hloop (fun c hc => absurd hc (List.not_mem_nil c))
    · show (if (resolveWindow ss se st lr iso nowY thirtyY).update_state
          then some (nowIso, lres.seen) else none) = some (nowIso, lres.seen)
      rw [hupd]
      rfl

/-- C6 witness: the theorem applied at an incremental run with `"1"`
already seen and search result `["3"]`. -/
theorem C6_witness :
    (["1"] : List String).toFinset ⊆ resC6.finalSeen ∧
    resC6.persisted = some ("NOW", resC6.finalSeen) := by
  have h := C6_seenPersistence none none ["1"] (some "L")
    (fun _ => "2025/01/01") "2025/10/12" "2025/09/12" "NOW" sfC6 oracleC6
    [⟨"Ann Lee", []⟩] resC6 (by decide) (by decide)
  exact ⟨h.1, h.2.2.2⟩

/-- C9: for every successful run, the combined Master table starts with
the fixed header `EXPECTED_COLS` — `pmid` (the spec's `id`), `title`,
`journal`, `pub_year`, `doi`, `authors`, `pubmed_url` (the spec's
`source_url`), `tracked_author` — regardless of how many records were
accepted, every row follows that column order, each configured author gets
a section, and an author with zero accepted records gets a section
consisting of exactly one explanatory placeholder row. -/
theorem C9_outputShape :
    ∀ (ss se : Option String) (st : List String) (lr : Option String)
      (iso : String → String) (nowY thirtyY nowIso : String)
      (sf : String → Except Unit (List String))
      (o : List String → ChunkResponse) (authors : List AuthorCfg)
      (res : MainResult),
    runMain ss se st lr iso nowY thirtyY nowIso sf o authors = .ok res →
    res.master.head? = some EXPECTED_COLS ∧
    res.master = EXPECTED_COLS :: res.rows.map rowToList ∧
    res.sections = authors.map (fun a =>
      (a.full_name, authorSection res.rows a.full_name)) ∧
    ∀ a ∈ authors,
      res.rows.filter (fun r => r.tracked_author == a.full_name) = [] →
      (a.full_name, [["No publications found in this date window."]])
        ∈ res.sections := by
  intro ss se st lr iso nowY thirtyY nowIso sf o authors res hrun
  simp only [runMain] at hrun
  split at hrun
  · exact (Except.noConfusion hrun)
  · rename_i lres hloop
    cases hrun
    refine ⟨rfl, rfl, rfl, ?_⟩
    intro a ha hfilt
    have hf : lres.all_rows.filter (fun r => r.tracked_author == a.full_name)
        = [] := hfilt
    have hsec : authorSection lres.all_rows a.full_name =
        [["No publications found in this date window."]] := by
      simp only [authorSection, hf]
      rfl
    exact List.mem_map.mpr ⟨a, ha, by rw [hsec]⟩

/-- C9 witness: the theorem applied at a run whose single author has
zero accepted records — the header is fixed and the placeholder section is
present. -/
theorem C9_witness :
    resC9.master.head? = some EXPECTED_COLS ∧
    ("Ann Lee", [["No publications found in this date window."]])
      ∈ resC9.sections := by
  have h := C9_outputShape none none [] none (fun _ => "2025/01/01")
    "2025/10/12" "2025/09/12" "NOW" sfC9 oracleC9 [⟨"Ann Lee", []⟩] resC9
    (by decide)
  exact ⟨h.1, h.2.2.2 ⟨"Ann Lee", []⟩ (by decide) (by decide)⟩

end PubMedTracker
